import Mathlib

/-!
Verification of the storage codec in `state/storage.go` (package `state`).

The codec (`encodeStorage` / `decodeStorage`) maps typed values (32-byte
hashes, 20-byte addresses, strings, unsigned integers, booleans, big
integers) to and from canonical storage bytes, eliding every zero value to
the empty byte string.  Non-empty encodings are RLP entries produced and
consumed through the vendored go-ethereum `rlp` package, whose relevant
semantics (`EncodeToBytes` for byte strings and unsigned integers,
`Split`, `DecodeBytes` for string / uint / bool / big.Int targets, and
`common.Hash.SetBytes` / `common.Address.SetBytes`) are embedded here.

Bytes are modelled as `List Nat` (each element intended `< 256`); Go
errors are modelled as `String`; fallible functions return
`Except String α`.  The in-place mutation of decode destinations is
modelled by returning the new destination value, with the prior contents
of fixed-size destinations passed in explicitly (go-ethereum `SetBytes`
keeps the untouched leading bytes of the destination array).
-/

set_option maxRecDepth 100000

/-- Decidable equality for `Except`, used to evaluate codec results on
concrete inputs. -/
instance {ε α : Type} [DecidableEq ε] [DecidableEq α] : DecidableEq (Except ε α)
  | .error e, .error f =>
    if h : e = f then .isTrue (congrArg Except.error h)
    else .isFalse (fun hh => h (Except.error.inj hh))
  | .error _, .ok _ => .isFalse (fun hh => Except.noConfusion hh)
  | .ok _, .error _ => .isFalse (fun hh => Except.noConfusion hh)
  | .ok a, .ok b =>
    if h : a = b then .isTrue (congrArg Except.ok h)
    else .isFalse (fun hh => h (Except.ok.inj hh))

/-- Minimal big-endian base-256 digits of `n`, with structural fuel so that
the kernel can evaluate it (`beBytesAux n n` always has enough fuel since
`n / 256 < n` for `n > 0`). -/
def beBytesAux : Nat → Nat → List Nat
  | 0, _ => []
  | fuel + 1, n => if n = 0 then [] else beBytesAux fuel (n / 256) ++ [n % 256]

/-- Minimal big-endian byte representation of a natural number; empty for 0,
no leading zero byte otherwise.  This is `i.Bytes()` of `math/big` and the
integer serialization of go-ethereum rlp. -/
def beBytes (n : Nat) : List Nat := beBytesAux n n

/-- Big-endian value of a byte string (go-ethereum `rlp.readSize` /
`Stream.readUint` accumulation). -/
def beVal (bs : List Nat) : Nat := bs.foldl (fun acc b => acc * 256 + b) 0

/-- RLP kinds returned by go-ethereum `rlp.Split`. -/
inductive RlpKind where
  | byteK
  | stringK
  | listK
deriving DecidableEq, Repr

/-- go-ethereum `rlp.readSize b slen`: big-endian size value with
canonicality checks (sizes below 56 and leading zero bytes are rejected). -/
def readSize (b : List Nat) (slen : Nat) : Except String Nat :=
  if b.length < slen then .error "unexpected EOF"
  else
    let s := beVal (b.take slen)
    if s < 56 ∨ b.head? = some 0 then .error "rlp: non-canonical size information"
    else .ok s

/-- Tag dispatch of go-ethereum `rlp.readKind` on the first byte `b` with
remaining bytes `tail`: yields kind, tag size and content size.
`tail.headD 128 < 128` renders Go's `len(buf) > 1 && buf[1] < 128`
(the default 128 makes the test false when there is no second byte). -/
def readKindCore (b : Nat) (tail : List Nat) : Except String (RlpKind × Nat × Nat) :=
  if b < 128 then .ok (.byteK, 0, 1)
  else if b < 184 then
    if b - 128 = 1 ∧ tail.headD 128 < 128 then
      .error "rlp: non-canonical size information"
    else .ok (.stringK, 1, b - 128)
  else if b < 192 then
    match readSize tail (b - 183) with
    | .error e => .error e
    | .ok s => .ok (.stringK, 1 + (b - 183), s)
  else if b < 248 then .ok (.listK, 1, b - 192)
  else
    match readSize tail (b - 247) with
    | .error e => .error e
    | .ok s => .ok (.listK, 1 + (b - 247), s)

/-- go-ethereum `rlp.readKind buf`, including the final check that the
announced content size fits in the available input. -/
def readKind (buf : List Nat) : Except String (RlpKind × Nat × Nat) :=
  match buf with
  | [] => .error "unexpected EOF"
  | b :: tail =>
    match readKindCore b tail with
    | .error e => .error e
    | .ok (k, ts, cs) =>
        if buf.length - ts < cs then .error "rlp: value size exceeds available input length"
        else .ok (k, ts, cs)

/-- go-ethereum `rlp.Split buf`: kind, content of the first entry, and the
remaining bytes after it.  Trailing bytes are returned, not rejected. -/
def rlpSplit (buf : List Nat) : Except String (RlpKind × List Nat × List Nat) :=
  match readKind buf with
  | .error e => .error e
  | .ok (k, ts, cs) => .ok (k, (buf.drop ts).take cs, buf.drop (ts + cs))

/-- go-ethereum RLP encoding of a byte string (`EncodeToBytes` on
`[]byte` / `string`; also the shape produced for non-zero unsigned integers
and positive big integers once their minimal big-endian bytes are taken). -/
def rlpEncodeBytes : List Nat → List Nat
  | [b] => if b < 128 then [b] else [129, b]
  | bs =>
      if bs.length ≤ 55 then (128 + bs.length) :: bs
      else (183 + (beBytes bs.length).length) :: (beBytes bs.length ++ bs)

/-- Width tags of the unsigned-integer cases of the codec type switch
(`uint`, `uint8`, `uint16`, `uint32`, `uint64`); `machine` is Go `uint`,
8 bytes on the 64-bit targets this repository builds for. -/
inductive UIntW where
  | machine
  | u8
  | u16
  | u32
  | u64
deriving DecidableEq, Repr

/-- Payload byte capacity of each unsigned width (go-ethereum rlp decodes
`uintN` through `Stream.uint(N)`, rejecting payloads above `N/8` bytes). -/
def UIntW.byteSize : UIntW → Nat
  | .machine => 8
  | .u8 => 1
  | .u16 => 2
  | .u32 => 4
  | .u64 => 8

/-- Values handled by `encodeStorage`.  `bytes32`/`address` carry the raw
array contents of `thor.Bytes32` (32 bytes) / `thor.Address` (20 bytes);
`str` carries the byte content of a Go string; `ext` models a value of a
custom type implementing the `StorageEncoder` extension interface,
carrying its reflected type name and the result its own `Encode()` would
return; `unknown` models a value of any other type (only its reflected
type name is relevant to the codec). -/
inductive SValue where
  | bytes32 (v : List Nat)
  | address (v : List Nat)
  | str (s : List Nat)
  | uintV (w : UIntW) (n : Nat)
  | boolV (b : Bool)
  | bigInt (i : Int)
  | ext (tyName : String) (encRes : Except String (List Nat))
  | unknown (tyName : String)
deriving DecidableEq

/-- The string `reflect.TypeOf(val).String()` yields for a value of the
modelled kind, passed either directly or through a pointer. -/
def goTypeName (isPtr : Bool) : SValue → String
  | .bytes32 _ => if isPtr then "*thor.Bytes32" else "thor.Bytes32"
  | .address _ => if isPtr then "*thor.Address" else "thor.Address"
  | .str _ => if isPtr then "*string" else "string"
  | .uintV w _ =>
      (if isPtr then "*" else "") ++
      (match w with
       | .machine => "uint"
       | .u8 => "uint8"
       | .u16 => "uint16"
       | .u32 => "uint32"
       | .u64 => "uint64")
  | .boolV _ => if isPtr then "*bool" else "bool"
  | .bigInt _ => if isPtr then "*big.Int" else "big.Int"
  | .ext n _ => n
  | .unknown n => if isPtr then "*" ++ n else n

/-- `encodeUint` of storage.go: zero elides to empty bytes, otherwise
go-ethereum rlp encodes the minimal big-endian bytes of the value. -/
def encodeUint (i : Nat) : Except String (List Nat) :=
  if i = 0 then .ok [] else .ok (rlpEncodeBytes (beBytes i))

/-- `encodeBytesTrimmed` of storage.go: strip leading zero bytes; empty
result elides to empty bytes, otherwise rlp-encode the trimmed bytes. -/
def encodeBytesTrimmed (bs : List Nat) : Except String (List Nat) :=
  let trimmed := bs.dropWhile (fun b => b == 0)
  if trimmed.isEmpty then .ok [] else .ok (rlpEncodeBytes trimmed)

/-- `encodeString` of storage.go. -/
def encodeString (s : List Nat) : Except String (List Nat) :=
  if s.isEmpty then .ok [] else .ok (rlpEncodeBytes s)

/-- `encodeBool` of storage.go: false elides; true rlp-encodes as the
single byte 0x01. -/
def encodeBool (b : Bool) : Except String (List Nat) :=
  if !b then .ok [] else .ok (rlpEncodeBytes (beBytes 1))

/-- `encodeStorage` of storage.go.  The Go type switch matches each
built-in type both as a value and as a pointer, except `big.Int`, which is
matched only as `*big.Int`; the pointer cases dereference and apply the
same per-type encoder.  Inside the `*big.Int` case, go-ethereum rlp
rejects negative values.  Any unmatched type falls through to the
unsupported-type error naming the concrete type — including types that
implement the `StorageEncoder` extension interface, which this function
never consults. -/
def encodeStorage (isPtr : Bool) (val : SValue) : Except String (List Nat) :=
  match isPtr, val with
  | _, .bytes32 v => encodeBytesTrimmed v
  | _, .address v => encodeBytesTrimmed v
  | _, .str s => encodeString s
  | _, .uintV _ n => encodeUint n
  | _, .boolV b => encodeBool b
  | true, .bigInt i =>
      if i = 0 then .ok []
      else if i < 0 then .error "rlp: cannot encode negative *big.Int"
      else .ok (rlpEncodeBytes (beBytes i.toNat))
  | false, v@(.bigInt _) => .error ("encode storage value: type " ++ goTypeName false v)
  | p, v@(.ext _ _) => .error ("encode storage value: type " ++ goTypeName p v)
  | p, v@(.unknown _) => .error ("encode storage value: type " ++ goTypeName p v)

/-- Decode destinations of `decodeStorage` (the pointer types of the Go
type switch).  Fixed-size destinations carry their prior contents, since
go-ethereum `SetBytes` writes only the trailing bytes of the array.
`dExt` models a destination implementing the `StorageDecoder` extension
interface; `dOther` any other unmatched destination type. -/
inductive SDest where
  | dBytes32 (prior : List Nat)
  | dAddress (prior : List Nat)
  | dString
  | dUint (w : UIntW)
  | dBool
  | dBigInt
  | dExt (tyName : String)
  | dOther (tyName : String)
deriving DecidableEq

/-- `common.Hash.SetBytes` / `common.Address.SetBytes` (go-ethereum) on an
array of width `w` holding `prior`: a too-long source keeps its rightmost
`w` bytes; the source is copied into the rightmost positions, leaving the
leading `w - len` bytes of the prior contents in place. -/
def setBytes (w : Nat) (prior b : List Nat) : List Nat :=
  let c := if w < b.length then b.drop (b.length - w) else b
  prior.take (w - c.length) ++ c

/-- Type of the envelope-splitting function; `decodeStorageP` is
parameterized over it so that non-use of the parser on the empty-input
fast path is provable for an arbitrary parser. -/
abbrev SplitFn := List Nat → Except String (RlpKind × List Nat × List Nat)

/-- The final step of go-ethereum `rlp.DecodeBytes`: after one value is
decoded, remaining input is an error. -/
def decodeBytesWrap {α : Type} : Except String (α × List Nat) → Except String α
  | .error e => .error e
  | .ok (v, rest) => if rest.isEmpty then .ok v else .error "rlp: input contains more than one value"

/-- One-value string decoding of go-ethereum rlp (`Stream.Bytes` target):
a list entry is rejected; byte/string content is taken verbatim.  The
canonical-size checks of `Stream.Bytes` coincide with the ones `rlpSplit`
already performs. -/
def decodeStringOne (split : SplitFn) (data : List Nat) : Except String (List Nat × List Nat) :=
  match split data with
  | .error e => .error e
  | .ok (.listK, _, _) => .error "rlp: expected String or Byte"
  | .ok (_, content, rest) => .ok (content, rest)

/-- One-value unsigned-integer decoding of go-ethereum rlp
(`Stream.uint`): list entries rejected; a single-byte entry must be
non-zero; a string entry must fit `maxBytes`, have no leading zero byte,
and must not denote a value below 128 (which had to use the single-byte
form). -/
def decodeUintOne (split : SplitFn) (maxBytes : Nat) (data : List Nat) :
    Except String (Nat × List Nat) :=
  match split data with
  | .error e => .error e
  | .ok (.listK, _, _) => .error "rlp: expected String or Byte"
  | .ok (.byteK, content, rest) =>
      if beVal content = 0 then .error "rlp: non-canonical integer format"
      else .ok (beVal content, rest)
  | .ok (.stringK, content, rest) =>
      if maxBytes < content.length then .error "rlp: uint overflow"
      else if content.head? = some 0 then .error "rlp: non-canonical integer format"
      else if 0 < content.length ∧ beVal content < 128 then
        .error "rlp: non-canonical size information"
      else .ok (beVal content, rest)

/-- One-value boolean decoding of go-ethereum rlp (`Stream.Bool`): decoded
as a one-byte unsigned integer that must be 0 or 1. -/
def decodeBoolOne (split : SplitFn) (data : List Nat) : Except String (Bool × List Nat) :=
  match decodeUintOne split 1 data with
  | .error e => .error e
  | .ok (0, rest) => .ok (false, rest)
  | .ok (1, rest) => .ok (true, rest)
  | .ok (n, _) => .error ("rlp: invalid boolean value: " ++ toString n)

/-- One-value big-integer decoding of go-ethereum rlp (`decodeBigInt`):
list entries rejected, leading zero bytes rejected, value is the
big-endian magnitude. -/
def decodeBigIntOne (split : SplitFn) (data : List Nat) : Except String (Nat × List Nat) :=
  match split data with
  | .error e => .error e
  | .ok (.listK, _, _) => .error "rlp: expected String or Byte"
  | .ok (_, content, rest) =>
      if content.head? = some 0 then .error "rlp: non-canonical integer format"
      else .ok (beVal content, rest)

/-- `decodeStorage` of storage.go, parameterized by the envelope parser.
Every case first handles empty input by writing the zero value.  The
`thor.Bytes32` / `thor.Address` cases call `rlp.Split` and pass the
content to `SetBytes`, ignoring both the kind and any trailing bytes; the
remaining built-in cases call `rlp.DecodeBytes`.  Unmatched destination
types — including ones implementing the `StorageDecoder` extension
interface, which this function never consults — get the unsupported-type
error naming the concrete type. -/
def decodeStorageP (split : SplitFn) (data : List Nat) (dst : SDest) : Except String SValue :=
  match dst with
  | .dBytes32 prior =>
      if data.isEmpty then .ok (.bytes32 (List.replicate 32 0))
      else
        match split data with
        | .error e => .error e
        | .ok (_, content, _) => .ok (.bytes32 (setBytes 32 prior content))
  | .dAddress prior =>
      if data.isEmpty then .ok (.address (List.replicate 20 0))
      else
        match split data with
        | .error e => .error e
        | .ok (_, content, _) => .ok (.address (setBytes 20 prior content))
  | .dString =>
      if data.isEmpty then .ok (.str [])
      else (decodeBytesWrap (decodeStringOne split data)).map .str
  | .dUint w =>
      if data.isEmpty then .ok (.uintV w 0)
      else (decodeBytesWrap (decodeUintOne split w.byteSize data)).map (.uintV w)
  | .dBool =>
      if data.isEmpty then .ok (.boolV false)
      else (decodeBytesWrap (decodeBoolOne split data)).map .boolV
  | .dBigInt =>
      if data.isEmpty then .ok (.bigInt 0)
      else (decodeBytesWrap (decodeBigIntOne split data)).map (fun n => .bigInt (Int.ofNat n))
  | .dExt n => .error ("decode storage value: type " ++ n)
  | .dOther n => .error ("decode storage value: type " ++ n)

/-- `decodeStorage` of storage.go, with the real go-ethereum parser. -/
def decodeStorage : List Nat → SDest → Except String SValue := decodeStorageP rlpSplit

/-- Built-in value kinds of the codec (everything the encoder type switch
matches). -/
def isBuiltin : SValue → Bool
  | .ext _ _ => false
  | .unknown _ => false
  | _ => true

/-- Built-in destination kinds of the decoder type switch. -/
def isBuiltinDest : SDest → Bool
  | .dExt _ => false
  | .dOther _ => false
  | _ => true

/-- Well-formedness of a modelled value as the image of a real Go value:
fixed arrays have their fixed width and byte-sized elements, strings have
byte-sized contents and a length below 2^64 (Go lengths fit an int), the
unsigned widths respect their bounds, and a big integer has fewer than
2^64 magnitude bytes. -/
def wf : SValue → Bool
  | .bytes32 v => v.length = 32 && v.all (fun b => b < 256)
  | .address v => v.length = 20 && v.all (fun b => b < 256)
  | .str s => s.all (fun b => b < 256) && s.length < 2 ^ 64
  | .uintV w n => n < 2 ^ (8 * w.byteSize)
  | .boolV _ => true
  | .bigInt i => (beBytes i.toNat).length < 2 ^ 64
  | .ext _ _ => false
  | .unknown _ => false

/-- True unless the value is a negative big integer. -/
def nonnegBig : SValue → Bool
  | .bigInt i => 0 ≤ i
  | _ => true

/-- The fresh (zero-initialized) decode destination of a value's type. -/
def freshDest : SValue → SDest
  | .bytes32 _ => .dBytes32 (List.replicate 32 0)
  | .address _ => .dAddress (List.replicate 20 0)
  | .str _ => .dString
  | .uintV w _ => .dUint w
  | .boolV _ => .dBool
  | .bigInt _ => .dBigInt
  | .ext n _ => .dExt n
  | .unknown n => .dOther n

/-- The zero value written by the decoder's empty-input fast path for each
built-in destination. -/
def zeroOfDest : SDest → SValue
  | .dBytes32 _ => .bytes32 (List.replicate 32 0)
  | .dAddress _ => .address (List.replicate 20 0)
  | .dString => .str []
  | .dUint w => .uintV w 0
  | .dBool => .boolV false
  | .dBigInt => .bigInt 0
  | .dExt n => .unknown n
  | .dOther n => .unknown n

theorem sanity_encode_u64_300 :
    encodeStorage false (.uintV .u64 300) = .ok [130, 1, 44] := by decide

theorem sanity_split_trailing :
    rlpSplit [1, 1] = .ok (.byteK, [1], [1]) := by decide

theorem sanity_encode_true :
    encodeStorage false (.boolV true) = .ok [1] := by decide

theorem beBytesAux_eq_digits (fuel : Nat) : ∀ n : Nat, n ≤ fuel →
    beBytesAux fuel n = (Nat.digits 256 n).reverse := by
  induction fuel with
  | zero =>
    intro n h
    have : n = 0 := Nat.le_zero.mp h
    subst this
    simp [beBytesAux]
  | succ fuel ih =>
    intro n h
    by_cases hn : n = 0
    · subst hn; simp [beBytesAux]
    · have hdiv : n / 256 ≤ fuel := by
        have := Nat.div_lt_self (Nat.pos_of_ne_zero hn) (by norm_num : 1 < 256)
        omega
      rw [show beBytesAux (fuel + 1) n
            = if n = 0 then [] else beBytesAux fuel (n / 256) ++ [n % 256] from rfl,
        if_neg hn, ih _ hdiv,
        Nat.digits_def' (by norm_num : (1:Nat) < 256) (Nat.pos_of_ne_zero hn)]
      simp

theorem beBytes_eq_digits (n : Nat) : beBytes n = (Nat.digits 256 n).reverse :=
  beBytesAux_eq_digits n n le_rfl

theorem beVal_append_singleton (l : List Nat) (d : Nat) :
    beVal (l ++ [d]) = 256 * beVal l + d := by
  simp [beVal, List.foldl_append]
  ring

theorem beVal_reverse_ofDigits (l : List Nat) : beVal l.reverse = Nat.ofDigits 256 l := by
  induction l with
  | nil => simp [beVal, Nat.ofDigits]
  | cons d t ih =>
    rw [List.reverse_cons, beVal_append_singleton, ih, Nat.ofDigits_cons]
    ring

theorem beVal_beBytes (n : Nat) : beVal (beBytes n) = n := by
  rw [beBytes_eq_digits, beVal_reverse_ofDigits, Nat.ofDigits_digits]

theorem beBytes_eq_nil_iff (n : Nat) : beBytes n = [] ↔ n = 0 := by
  rw [beBytes_eq_digits]
  simp [Nat.digits_eq_nil_iff_eq_zero]

theorem beBytes_head?_ne_some_zero (n : Nat) : (beBytes n).head? ≠ some 0 := by
  by_cases hn : n = 0
  · subst hn; simp [beBytes, beBytesAux]
  · have hne : Nat.digits 256 n ≠ [] := Nat.digits_ne_nil_iff_ne_zero.mpr hn
    rw [beBytes_eq_digits, List.head?_reverse, List.getLast?_eq_getLast _ hne]
    intro hc
    exact Nat.getLast_digit_ne_zero 256 hn (Option.some.inj hc)

theorem beBytes_all_lt (n : Nat) : ∀ b ∈ beBytes n, b < 256 := by
  intro b hb
  rw [beBytes_eq_digits, List.mem_reverse] at hb
  exact Nat.digits_lt_base (by norm_num) hb

theorem beBytes_len_le_iff (n k : Nat) : (beBytes n).length ≤ k ↔ n < 256 ^ k := by
  rw [beBytes_eq_digits, List.length_reverse]
  constructor
  · intro h
    calc n < 256 ^ (Nat.digits 256 n).length := Nat.lt_base_pow_length_digits (by norm_num)
    _ ≤ 256 ^ k := Nat.pow_le_pow_right (by norm_num) h
  · intro h
    by_contra hk
    push_neg at hk
    by_cases hn : n = 0
    · subst hn; simp at hk
    · have h1 : 256 ^ (Nat.digits 256 n).length ≤ 256 * n :=
        Nat.base_pow_length_digits_le 256 n (by norm_num) hn
      have h2 : 256 * n < 256 ^ (k + 1) :=
        calc 256 * n < 256 * 256 ^ k := mul_lt_mul_of_pos_left h (by norm_num)
        _ = 256 ^ (k + 1) := by ring
      have h3 : 256 ^ (Nat.digits 256 n).length < 256 ^ (k + 1) := lt_of_le_of_lt h1 h2
      have := (Nat.pow_lt_pow_iff_right (by norm_num : 1 < 256)).mp h3
      omega

theorem beVal_single (b : Nat) : beVal [b] = b := by
  simp [beVal]

theorem rlpSplit_encode_low (b : Nat) (h : b < 128) :
    rlpSplit (rlpEncodeBytes [b]) = .ok (.byteK, [b], []) := by
  simp [rlpEncodeBytes, rlpSplit, readKind, readKindCore, h]

theorem rlpSplit_encode_highByte (b : Nat) (h1 : 128 ≤ b) (h2 : b < 256) :
    rlpSplit (rlpEncodeBytes [b]) = .ok (.stringK, [b], []) := by
  have hnb : ¬ b < 128 := by omega
  simp [rlpEncodeBytes, rlpSplit, readKind, readKindCore, hnb]

theorem rlpSplit_encode_multi (bs : List Nat) (h2 : 2 ≤ bs.length)
    (hlen : bs.length < 2 ^ 64) :
    rlpSplit (rlpEncodeBytes bs) = .ok (.stringK, bs, []) := by
  have henc : rlpEncodeBytes bs
      = if bs.length ≤ 55 then (128 + bs.length) :: bs
        else (183 + (beBytes bs.length).length) :: (beBytes bs.length ++ bs) := by
    obtain ⟨x, y, t, rfl⟩ : ∃ x y t, bs = x :: y :: t := by
      match bs, h2 with
      | x :: y :: t, _ => exact ⟨x, y, t, rfl⟩
    rfl
  by_cases hshort : bs.length ≤ 55
  · rw [henc, if_pos hshort]
    have hcore : readKindCore (128 + bs.length) bs = .ok (.stringK, 1, bs.length) := by
      simp only [readKindCore]
      rw [if_neg (by omega : ¬ 128 + bs.length < 128),
        if_pos (by omega : 128 + bs.length < 184),
        if_neg (by rintro ⟨hc, -⟩; omega :
          ¬ (128 + bs.length - 128 = 1 ∧ bs.headD 128 < 128)),
        show 128 + bs.length - 128 = bs.length from by omega]
    have hkind : readKind ((128 + bs.length) :: bs) = .ok (.stringK, 1, bs.length) := by
      simp only [readKind, hcore]
      rw [if_neg (by simp : ¬ ((128 + bs.length) :: bs).length - 1 < bs.length)]
    simp only [rlpSplit, hkind, List.drop_succ_cons, List.drop_zero,
      show 1 + bs.length = bs.length + 1 from by omega]
    rw [List.take_length, List.drop_length]
  · push_neg at hshort
    rw [henc, if_neg (by omega : ¬ bs.length ≤ 55)]
    have hLpos : bs.length ≠ 0 := by omega
    have hslen_le : (beBytes bs.length).length ≤ 8 := by
      rw [beBytes_len_le_iff]
      calc bs.length < 2 ^ 64 := hlen
      _ = 256 ^ 8 := by norm_num
    have hslen_pos : beBytes bs.length ≠ [] :=
      fun hc => hLpos ((beBytes_eq_nil_iff _).mp hc)
    have hslen1 : 1 ≤ (beBytes bs.length).length := List.length_pos.mpr hslen_pos
    have hreadSize : readSize (beBytes bs.length ++ bs) (beBytes bs.length).length
        = .ok bs.length := by
      have hlen_avail : ¬ (beBytes bs.length ++ bs).length < (beBytes bs.length).length := by
        simp [List.length_append]
      have htake : (beBytes bs.length ++ bs).take (beBytes bs.length).length
          = beBytes bs.length := List.take_left _ _
      have hhead : (beBytes bs.length ++ bs).head? = (beBytes bs.length).head? := by
        cases hbb : beBytes bs.length with
        | nil => exact absurd hbb hslen_pos
        | cons a l => simp [hbb]
      have hnc : ¬ (beVal ((beBytes bs.length ++ bs).take (beBytes bs.length).length) < 56
          ∨ (beBytes bs.length ++ bs).head? = some 0) := by
        rw [htake, beVal_beBytes, hhead]
        push_neg
        exact ⟨by omega, beBytes_head?_ne_some_zero _⟩
      simp only [readSize, if_neg hlen_avail]
      rw [if_neg hnc, htake, beVal_beBytes]
    have hcore : readKindCore (183 + (beBytes bs.length).length) (beBytes bs.length ++ bs)
        = .ok (.stringK, 1 + (beBytes bs.length).length, bs.length) := by
      simp only [readKindCore]
      rw [if_neg (by omega : ¬ 183 + (beBytes bs.length).length < 128),
        if_neg (by omega : ¬ 183 + (beBytes bs.length).length < 184),
        if_pos (by omega : 183 + (beBytes bs.length).length < 192),
        show 183 + (beBytes bs.length).length - 183 = (beBytes bs.length).length from by omega,
        hreadSize]
    have havail : ¬ ((183 + (beBytes bs.length).length) :: (beBytes bs.length ++ bs)).length
        - (1 + (beBytes bs.length).length) < bs.length := by
      simp only [List.length_cons, List.length_append]
      omega
    have hkind : readKind ((183 + (beBytes bs.length).length) :: (beBytes bs.length ++ bs))
        = .ok (.stringK, 1 + (beBytes bs.length).length, bs.length) := by
      simp only [readKind, hcore]
      rw [if_neg havail]
    have hdrop1 : ((183 + (beBytes bs.length).length) :: (beBytes bs.length ++ bs)).drop
        (1 + (beBytes bs.length).length) = bs := by
      rw [show 1 + (beBytes bs.length).length = (beBytes bs.length).length + 1 from by omega,
        List.drop_succ_cons, List.drop_left]
    have hdrop2 : ((183 + (beBytes bs.length).length) :: (beBytes bs.length ++ bs)).drop
        (1 + (beBytes bs.length).length + bs.length) = [] := by
      rw [show 1 + (beBytes bs.length).length + bs.length
          = ((beBytes bs.length).length + bs.length) + 1 from by omega,
        List.drop_succ_cons,
        show (beBytes bs.length).length + bs.length = (beBytes bs.length ++ bs).length from
          (List.length_append _ _).symm,
        List.drop_length]
    simp only [rlpSplit, hkind, hdrop1, hdrop2]
    rw [List.take_length]

theorem rlpSplit_encode (bs : List Nat) (hne : bs ≠ []) (hb : ∀ x ∈ bs, x < 256)
    (hlen : bs.length < 2 ^ 64) :
    ∃ k, rlpSplit (rlpEncodeBytes bs) = .ok (k, bs, []) ∧ k ≠ RlpKind.listK ∧
      ((k = RlpKind.byteK) ↔ (bs.length = 1 ∧ beVal bs < 128)) := by
  match bs, hne with
  | [b], _ =>
    by_cases hb128 : b < 128
    · exact ⟨.byteK, rlpSplit_encode_low b hb128, by simp,
        by simp [beVal_single, hb128]⟩
    · refine ⟨.stringK, rlpSplit_encode_highByte b (by omega) (hb b (by simp)), by simp, ?_⟩
      simp [beVal_single]
      omega
  | x :: y :: t, _ =>
    refine ⟨.stringK, rlpSplit_encode_multi _ (by simp) hlen, by simp, ?_⟩
    simp

theorem rlpEncodeBytes_ne_nil (bs : List Nat) : rlpEncodeBytes bs ≠ [] := by
  match bs with
  | [] => simp [rlpEncodeBytes]
  | [b] =>
    by_cases h : b < 128 <;> simp [rlpEncodeBytes, h]
  | x :: y :: t =>
    have henc : rlpEncodeBytes (x :: y :: t)
        = if (x :: y :: t).length ≤ 55 then (128 + (x :: y :: t).length) :: (x :: y :: t)
          else (183 + (beBytes (x :: y :: t).length).length)
            :: (beBytes (x :: y :: t).length ++ (x :: y :: t)) := rfl
    rw [henc]
    split <;> simp

theorem setBytes_fresh (w : Nat) (c : List Nat) (hc : c.length ≤ w) :
    setBytes w (List.replicate w 0) c = List.replicate (w - c.length) 0 ++ c := by
  simp only [setBytes]
  rw [if_neg (by omega : ¬ w < c.length), List.take_replicate,
    min_eq_left (Nat.sub_le _ _)]

theorem setBytes_long (w : Nat) (prior c : List Nat) (hc : w ≤ c.length) :
    setBytes w prior c = c.drop (c.length - w) := by
  simp only [setBytes]
  by_cases h : w < c.length
  · rw [if_pos h]
    have hlen : (c.drop (c.length - w)).length = w := by
      rw [List.length_drop]
      omega
    rw [hlen, Nat.sub_self, List.take_zero, List.nil_append]
  · rw [if_neg h]
    have h0 : c.length - w = 0 := by omega
    have h1 : w - c.length = 0 := by omega
    rw [h0, List.drop_zero, h1, List.take_zero, List.nil_append]

theorem takeWhile_zero_replicate (v : List Nat) :
    v.takeWhile (fun b => b == 0)
      = List.replicate (v.takeWhile (fun b => b == 0)).length 0 := by
  rw [List.eq_replicate_iff]
  exact ⟨rfl, fun b hb => by simpa using List.mem_takeWhile_imp hb⟩

theorem zero_decomp (v : List Nat) :
    List.replicate (v.takeWhile (fun b => b == 0)).length 0
      ++ v.dropWhile (fun b => b == 0) = v := by
  conv_rhs => rw [← List.takeWhile_append_dropWhile (p := fun b => b == 0) (l := v)]
  rw [← takeWhile_zero_replicate]

theorem takeWhile_length_add_dropWhile_length (v : List Nat) :
    (v.takeWhile (fun b => b == 0)).length + (v.dropWhile (fun b => b == 0)).length
      = v.length := by
  conv_rhs => rw [← List.takeWhile_append_dropWhile (p := fun b => b == 0) (l := v)]
  rw [List.length_append]

theorem all_zero_of_dropWhile_nil (v : List Nat) (h : v.dropWhile (fun b => b == 0) = []) :
    v = List.replicate v.length 0 := by
  have hlen : (v.takeWhile (fun b => b == 0)).length = v.length := by
    have := takeWhile_length_add_dropWhile_length v
    rw [h] at this
    simpa using this
  conv_lhs => rw [← List.takeWhile_append_dropWhile (p := fun b => b == 0) (l := v)]
  rw [h, List.append_nil, takeWhile_zero_replicate, hlen]

theorem fixed_roundtrip (w : Nat) (v : List Nat) (hlen : v.length = w)
    (hb : ∀ x ∈ v, x < 256) (hw : w < 2 ^ 64) :
    ∃ bs, encodeBytesTrimmed v = .ok bs ∧
      ((bs = [] ∧ v = List.replicate w 0) ∨
       (bs ≠ [] ∧ ∃ k, rlpSplit bs = .ok (k, v.dropWhile (fun b => b == 0), []) ∧
          setBytes w (List.replicate w 0) (v.dropWhile (fun b => b == 0)) = v)) := by
  by_cases ht : v.dropWhile (fun b => b == 0) = []
  · refine ⟨[], ?_, Or.inl ⟨rfl, ?_⟩⟩
    · simp [encodeBytesTrimmed, ht]
    · rw [← hlen]
      exact all_zero_of_dropWhile_nil v ht
  · have hsub : ∀ x ∈ v.dropWhile (fun b => b == 0), x < 256 :=
      fun x hx => hb x ((List.dropWhile_sublist _).subset hx)
    have hlsum := takeWhile_length_add_dropWhile_length v
    have htl : (v.dropWhile (fun b => b == 0)).length ≤ w := by omega
    obtain ⟨k, hsplit, -, -⟩ :=
      rlpSplit_encode (v.dropWhile (fun b => b == 0)) ht hsub (by omega)
    refine ⟨rlpEncodeBytes (v.dropWhile (fun b => b == 0)), ?_,
      Or.inr ⟨rlpEncodeBytes_ne_nil _, k, hsplit, ?_⟩⟩
    · simp [encodeBytesTrimmed, ht]
    · rw [setBytes_fresh w _ htl]
      have hcount : w - (v.dropWhile (fun b => b == 0)).length
          = (v.takeWhile (fun b => b == 0)).length := by omega
      rw [hcount]
      exact zero_decomp v

theorem uint_decode_encode (maxB : Nat) (n : Nat) (hn : n ≠ 0)
    (hmax : n < 256 ^ maxB) (hB : maxB ≤ 8) :
    decodeUintOne rlpSplit maxB (rlpEncodeBytes (beBytes n)) = .ok (n, []) := by
  have hne : beBytes n ≠ [] := fun hc => hn ((beBytes_eq_nil_iff _).mp hc)
  have hlen_le : (beBytes n).length ≤ maxB := (beBytes_len_le_iff _ _).mpr hmax
  obtain ⟨k, hsplit, hkl, hkb⟩ := rlpSplit_encode (beBytes n) hne (beBytes_all_lt n)
    (by omega)
  cases k with
  | byteK =>
    simp only [decodeUintOne, hsplit, beVal_beBytes]
    rw [if_neg hn]
  | stringK =>
    have hc1 : ¬ maxB < (beBytes n).length := by omega
    have hrhs : ¬ ((beBytes n).length = 1 ∧ beVal (beBytes n) < 128) := by
      rw [← hkb]
      simp
    have hc3 : ¬ (0 < (beBytes n).length ∧ beVal (beBytes n) < 128) := by
      rintro ⟨-, hlt⟩
      rcases Nat.lt_or_ge (beBytes n).length 2 with h1 | h2
      · have hone : (beBytes n).length = 1 := by
          have := List.length_pos.mpr hne
          omega
        exact hrhs ⟨hone, hlt⟩
      · have hnle : ¬ ((beBytes n).length ≤ 1) := by omega
        rw [beBytes_len_le_iff] at hnle
        rw [beVal_beBytes] at hlt
        omega
    simp only [decodeUintOne, hsplit]
    rw [if_neg hc1, if_neg (beBytes_head?_ne_some_zero n), if_neg hc3, beVal_beBytes]
  | listK => exact absurd rfl hkl

theorem bigint_decode_encode (n : Nat) (hn : n ≠ 0) (hlen : (beBytes n).length < 2 ^ 64) :
    decodeBigIntOne rlpSplit (rlpEncodeBytes (beBytes n)) = .ok (n, []) := by
  have hne : beBytes n ≠ [] := fun hc => hn ((beBytes_eq_nil_iff _).mp hc)
  obtain ⟨k, hsplit, hkl, -⟩ := rlpSplit_encode (beBytes n) hne (beBytes_all_lt n) hlen
  cases k with
  | byteK =>
    simp only [decodeBigIntOne, hsplit]
    rw [if_neg (beBytes_head?_ne_some_zero n), beVal_beBytes]
  | stringK =>
    simp only [decodeBigIntOne, hsplit]
    rw [if_neg (beBytes_head?_ne_some_zero n), beVal_beBytes]
  | listK => exact absurd rfl hkl

theorem string_decode_encode (s : List Nat) (hne : s ≠ []) (hb : ∀ x ∈ s, x < 256)
    (hlen : s.length < 2 ^ 64) :
    decodeStringOne rlpSplit (rlpEncodeBytes s) = .ok (s, []) := by
  obtain ⟨k, hsplit, hkl, -⟩ := rlpSplit_encode s hne hb hlen
  cases k with
  | byteK => simp only [decodeStringOne, hsplit]
  | stringK => simp only [decodeStringOne, hsplit]
  | listK => exact absurd rfl hkl

theorem decodeP_bytes32_ne (split : SplitFn) (data prior : List Nat) (hne : data ≠ []) :
    decodeStorageP split data (.dBytes32 prior)
      = match split data with
        | .error e => .error e
        | .ok (_, content, _) => .ok (.bytes32 (setBytes 32 prior content)) := by
  cases data with
  | nil => exact absurd rfl hne
  | cons a t => rfl

theorem decodeP_address_ne (split : SplitFn) (data prior : List Nat) (hne : data ≠ []) :
    decodeStorageP split data (.dAddress prior)
      = match split data with
        | .error e => .error e
        | .ok (_, content, _) => .ok (.address (setBytes 20 prior content)) := by
  cases data with
  | nil => exact absurd rfl hne
  | cons a t => rfl

theorem decodeP_str_ne (split : SplitFn) (data : List Nat) (hne : data ≠ []) :
    decodeStorageP split data .dString
      = (decodeBytesWrap (decodeStringOne split data)).map .str := by
  cases data with
  | nil => exact absurd rfl hne
  | cons a t => rfl

theorem decodeP_uint_ne (split : SplitFn) (data : List Nat) (w : UIntW) (hne : data ≠ []) :
    decodeStorageP split data (.dUint w)
      = (decodeBytesWrap (decodeUintOne split w.byteSize data)).map (.uintV w) := by
  cases data with
  | nil => exact absurd rfl hne
  | cons a t => rfl

theorem decodeP_bool_ne (split : SplitFn) (data : List Nat) (hne : data ≠ []) :
    decodeStorageP split data .dBool
      = (decodeBytesWrap (decodeBoolOne split data)).map .boolV := by
  cases data with
  | nil => exact absurd rfl hne
  | cons a t => rfl

theorem decodeP_bigint_ne (split : SplitFn) (data : List Nat) (hne : data ≠ []) :
    decodeStorageP split data .dBigInt
      = (decodeBytesWrap (decodeBigIntOne split data)).map (fun n => .bigInt (Int.ofNat n)) := by
  cases data with
  | nil => exact absurd rfl hne
  | cons a t => rfl

theorem encodeString_ne (s : List Nat) (hne : s ≠ []) :
    encodeString s = .ok (rlpEncodeBytes s) := by
  cases s with
  | nil => exact absurd rfl hne
  | cons a t => rfl

/-- C1 (amended): for every built-in, well-formed value that is not a
negative big integer, `encodeStorage` succeeds and `decodeStorage` of the
produced bytes into a fresh destination of the value's type succeeds and
returns a value equal to the original.  (Negative big integers are the
amendment: for them the encoder fails inside go-ethereum rlp, see
`C1_neg_bigint_counterexample`.) -/
theorem C1_roundtrip (v : SValue) (h1 : isBuiltin v = true) (h2 : wf v = true)
    (h3 : nonnegBig v = true) :
    ∃ bs, encodeStorage true v = .ok bs ∧ decodeStorage bs (freshDest v) = .ok v := by
  cases v with
  | bytes32 v =>
    simp only [wf, Bool.and_eq_true, decide_eq_true_eq, List.all_eq_true] at h2
    obtain ⟨hlen, hb⟩ := h2
    obtain ⟨bs, henc, hcase⟩ := fixed_roundtrip 32 v hlen hb (by norm_num)
    refine ⟨bs, henc, ?_⟩
    rcases hcase with ⟨rfl, hv⟩ | ⟨hbs, k, hsplit, hset⟩
    · conv_rhs => rw [hv]
      rfl
    · rw [show freshDest (.bytes32 v) = .dBytes32 (List.replicate 32 0) from rfl,
        show decodeStorage bs (.dBytes32 (List.replicate 32 0))
          = decodeStorageP rlpSplit bs (.dBytes32 (List.replicate 32 0)) from rfl,
        decodeP_bytes32_ne rlpSplit bs _ hbs]
      simp only [hsplit]
      rw [hset]
  | address v =>
    simp only [wf, Bool.and_eq_true, decide_eq_true_eq, List.all_eq_true] at h2
    obtain ⟨hlen, hb⟩ := h2
    obtain ⟨bs, henc, hcase⟩ := fixed_roundtrip 20 v hlen hb (by norm_num)
    refine ⟨bs, henc, ?_⟩
    rcases hcase with ⟨rfl, hv⟩ | ⟨hbs, k, hsplit, hset⟩
    · conv_rhs => rw [hv]
      rfl
    · rw [show freshDest (.address v) = .dAddress (List.replicate 20 0) from rfl,
        show decodeStorage bs (.dAddress (List.replicate 20 0))
          = decodeStorageP rlpSplit bs (.dAddress (List.replicate 20 0)) from rfl,
        decodeP_address_ne rlpSplit bs _ hbs]
      simp only [hsplit]
      rw [hset]
  | str s =>
    simp only [wf, Bool.and_eq_true, decide_eq_true_eq, List.all_eq_true] at h2
    obtain ⟨hb, hlen⟩ := h2
    by_cases hs : s = []
    · subst hs
      exact ⟨[], rfl, rfl⟩
    · refine ⟨rlpEncodeBytes s, encodeString_ne s hs, ?_⟩
      rw [show freshDest (.str s) = .dString from rfl,
        show decodeStorage (rlpEncodeBytes s) .dString
          = decodeStorageP rlpSplit (rlpEncodeBytes s) .dString from rfl,
        decodeP_str_ne rlpSplit _ (rlpEncodeBytes_ne_nil s),
        string_decode_encode s hs hb hlen]
      rfl
  | uintV w n =>
    simp only [wf, decide_eq_true_eq] at h2
    by_cases hn : n = 0
    · subst hn
      exact ⟨[], rfl, rfl⟩
    · have hmax : n < 256 ^ w.byteSize := by
        rw [show (256 : Nat) = 2 ^ 8 from by norm_num, ← pow_mul]
        exact h2
      refine ⟨rlpEncodeBytes (beBytes n), ?_, ?_⟩
      · show encodeUint n = _
        rw [encodeUint, if_neg hn]
      · have hB : w.byteSize ≤ 8 := by cases w <;> simp [UIntW.byteSize]
        rw [show freshDest (.uintV w n) = .dUint w from rfl,
          show decodeStorage (rlpEncodeBytes (beBytes n)) (.dUint w)
            = decodeStorageP rlpSplit (rlpEncodeBytes (beBytes n)) (.dUint w) from rfl,
          decodeP_uint_ne rlpSplit _ w (rlpEncodeBytes_ne_nil _),
          uint_decode_encode w.byteSize n hn hmax hB]
        rfl
  | boolV b =>
    cases b
    · exact ⟨[], rfl, rfl⟩
    · exact ⟨rlpEncodeBytes (beBytes 1), rfl, by decide⟩
  | bigInt i =>
    simp only [nonnegBig, decide_eq_true_eq] at h3
    simp only [wf, decide_eq_true_eq] at h2
    by_cases hi : i = 0
    · subst hi
      exact ⟨[], rfl, rfl⟩
    · have hipos : ¬ i < 0 := by omega
      have hn0 : i.toNat ≠ 0 := by omega
      refine ⟨rlpEncodeBytes (beBytes i.toNat), ?_, ?_⟩
      · show (if i = 0 then Except.ok [] else if i < 0 then
            Except.error "rlp: cannot encode negative *big.Int"
          else Except.ok (rlpEncodeBytes (beBytes i.toNat))) = _
        rw [if_neg hi, if_neg hipos]
      · rw [show freshDest (.bigInt i) = .dBigInt from rfl,
          show decodeStorage (rlpEncodeBytes (beBytes i.toNat)) .dBigInt
            = decodeStorageP rlpSplit (rlpEncodeBytes (beBytes i.toNat)) .dBigInt from rfl,
          decodeP_bigint_ne rlpSplit _ (rlpEncodeBytes_ne_nil _),
          bigint_decode_encode i.toNat hn0 h2]
        simp [decodeBytesWrap, Except.map, Int.toNat_of_nonneg h3]
  | ext n r => simp [isBuiltin] at h1
  | unknown n => simp [isBuiltin] at h1

theorem C1_roundtrip_witness :
    isBuiltin (.uintV .u64 300) = true ∧ wf (.uintV .u64 300) = true ∧
      nonnegBig (.uintV .u64 300) = true ∧
      ∃ bs, encodeStorage true (.uintV .u64 300) = .ok bs ∧
        decodeStorage bs (freshDest (.uintV .u64 300)) = .ok (.uintV .u64 300) :=
  ⟨rfl, by decide, rfl, C1_roundtrip (.uintV .u64 300) rfl (by decide) rfl⟩

/-- Whether an `Except` result is an error. -/
def isError {ε α : Type} : Except ε α → Bool
  | .error _ => true
  | .ok _ => false

theorem isError_iff {ε α : Type} (x : Except ε α) :
    isError x = true ↔ ∃ e, x = .error e := by
  cases x with
  | error e => simp [isError]
  | ok v => simp [isError]

/-- C1 counterexample: the claim asserts that encoding succeeds and
round-trips for every value of every built-in type, including the
arbitrary-precision integer type; but for the negative big integer -1 the
encoder fails (go-ethereum rlp refuses negative big integers), so no
round-trip exists for this value. -/
theorem C1_neg_bigint_counterexample :
    encodeStorage true (.bigInt (-1)) = .error "rlp: cannot encode negative *big.Int" := by
  decide

/-- C2: `encodeStorage` maps the zero value of every built-in type — the
all-zero 32-byte hash, the all-zero 20-byte address, the empty string,
zero of every unsigned width, false, and big-integer zero — to the empty
byte string with no error, for value and pointer forms alike (the big
integer is accepted only as a pointer). -/
theorem C2_zero_elision (p : Bool) (w : UIntW) :
    encodeStorage p (.bytes32 (List.replicate 32 0)) = .ok [] ∧
    encodeStorage p (.address (List.replicate 20 0)) = .ok [] ∧
    encodeStorage p (.str []) = .ok [] ∧
    encodeStorage p (.uintV w 0) = .ok [] ∧
    encodeStorage p (.boolV false) = .ok [] ∧
    encodeStorage true (.bigInt 0) = .ok [] := by
  cases p <;> exact ⟨by decide, by decide, rfl, rfl, rfl, rfl⟩

/-- C3: decoding the empty byte string into any built-in destination
succeeds and writes the zero value of the destination type; this holds for
an arbitrary envelope parser, so the parser is never consulted on the
empty-input fast path. -/
theorem C3_decode_empty (split : SplitFn) (dst : SDest) (h : isBuiltinDest dst = true) :
    decodeStorageP split [] dst = .ok (zeroOfDest dst) := by
  cases dst <;> first
    | rfl
    | simp [isBuiltinDest] at h

theorem C3_decode_empty_witness :
    isBuiltinDest (.dUint .u64) = true ∧
      decodeStorageP rlpSplit [] (.dUint .u64) = .ok (zeroOfDest (.dUint .u64)) :=
  ⟨rfl, C3_decode_empty rlpSplit (.dUint .u64) rfl⟩

/-- C4 counterexample: a value of a custom type implementing the
`StorageEncoder` extension capability — whose own `Encode()` would return
the byte 0x01 — still gets the unsupported-type error from
`encodeStorage`, and a destination implementing `StorageDecoder` gets the
unsupported-type error from `decodeStorage`: the unsupported-type error IS
applied to extension-capable values, and the built-in functions never
delegate to the extension logic. -/
theorem C4_extension_counterexample :
    encodeStorage false (.ext "state.customValue" (.ok [1]))
        = .error "encode storage value: type state.customValue" ∧
      decodeStorage [1] (.dExt "*state.customValue")
        = .error "decode storage value: type *state.customValue" :=
  ⟨rfl, rfl⟩

/-- C4 (amended): `encodeStorage` and `decodeStorage` themselves never
consult the `StorageEncoder` / `StorageDecoder` extension interfaces:
a value or destination outside the built-in set receives the
unsupported-type error naming its concrete type even when it implements
the extension capability, whatever its own encoding logic would return;
any delegation to the extension interfaces happens in callers outside
these two functions. -/
theorem C4_no_extension_dispatch (p : Bool) (n : String)
    (r : Except String (List Nat)) (data : List Nat) :
    encodeStorage p (.ext n r) = .error ("encode storage value: type " ++ n) ∧
    decodeStorage data (.dExt n) = .error ("decode storage value: type " ++ n) := by
  exact ⟨by cases p <;> rfl, rfl⟩

/-- C7: a value (on encode) or destination (on decode) whose type is
outside the built-in set fails with an unsupported-type error, and the
error message contains the concrete type's name (here: the message is a
fixed prefix followed by the reflected type name). -/
theorem C7_unsupported_type (p : Bool) (n : String) (data : List Nat) :
    (∃ pre, encodeStorage p (.unknown n) = .error (pre ++ n)) ∧
    (∃ pre, decodeStorage data (.dOther n) = .error (pre ++ n)) := by
  constructor
  · cases p with
    | false => exact ⟨"encode storage value: type ", rfl⟩
    | true =>
      refine ⟨"encode storage value: type " ++ "*", ?_⟩
      show Except.error ("encode storage value: type " ++ ("*" ++ n)) = _
      rw [String.append_assoc]
  · exact ⟨"decode storage value: type ", rfl⟩

/-- C9 counterexample: the claim asserts that value and pointer forms of
every built-in type encode identically, but a `big.Int` passed by value
hits the default unsupported-type branch (the type switch only matches
`*big.Int`), while the pointer form encodes successfully. -/
theorem C9_bigint_value_counterexample :
    encodeStorage false (.bigInt 1) = .error "encode storage value: type big.Int" ∧
    encodeStorage true (.bigInt 1) = .ok [1] ∧
    encodeStorage false (.bigInt 1) ≠ encodeStorage true (.bigInt 1) := by
  refine ⟨by decide, by decide, by decide⟩

/-- C9 (amended): for every built-in type except the arbitrary-precision
integer, `encodeStorage` returns identical results for the value form and
the pointer form of the same value; big integers are accepted only in
pointer form, the value form falling through to the unsupported-type
error. -/
theorem C9_value_ptr_agree (v : SValue) (h1 : isBuiltin v = true)
    (h2 : ∀ i : Int, v ≠ .bigInt i) :
    encodeStorage false v = encodeStorage true v := by
  cases v with
  | bigInt i => exact absurd rfl (h2 i)
  | ext n r => simp [isBuiltin] at h1
  | unknown n => simp [isBuiltin] at h1
  | bytes32 v => rfl
  | address v => rfl
  | str s => rfl
  | uintV w n => rfl
  | boolV b => rfl

theorem C9_value_ptr_agree_witness :
    encodeStorage false (.uintV .u64 300) = encodeStorage true (.uintV .u64 300) :=
  C9_value_ptr_agree (.uintV .u64 300) rfl (fun _ h => SValue.noConfusion h)

/-- Accepted-payload shape of fixed-width decoding: shorter payloads are
left-padded with zero bytes to the width, longer payloads keep their
rightmost `w` bytes. -/
def padCrop (w : Nat) (c : List Nat) : List Nat :=
  if c.length ≤ w then List.replicate (w - c.length) 0 ++ c
  else c.drop (c.length - w)

theorem setBytes_fresh_padCrop (w : Nat) (c : List Nat) :
    setBytes w (List.replicate w 0) c = padCrop w c := by
  by_cases h : c.length ≤ w
  · rw [setBytes_fresh w c h, padCrop, if_pos h]
  · rw [setBytes_long w _ c (by omega), padCrop, if_neg h]

/-- C10: when a non-empty input parses as an envelope entry (of any kind,
with or without trailing bytes), decoding into a fresh 32-byte hash or
20-byte address destination accepts a payload of any length without
error: a short payload is left-padded with zeros, a long payload is
silently cropped to its rightmost 32 (resp. 20) bytes. -/
theorem C10_fixed_pad_crop (data : List Nat) (k : RlpKind) (content rest : List Nat)
    (hne : data ≠ []) (hsplit : rlpSplit data = .ok (k, content, rest)) :
    decodeStorage data (.dBytes32 (List.replicate 32 0))
        = .ok (.bytes32 (padCrop 32 content)) ∧
    decodeStorage data (.dAddress (List.replicate 20 0))
        = .ok (.address (padCrop 20 content)) := by
  constructor
  · rw [show decodeStorage data (.dBytes32 (List.replicate 32 0))
        = decodeStorageP rlpSplit data (.dBytes32 (List.replicate 32 0)) from rfl,
      decodeP_bytes32_ne rlpSplit data _ hne]
    simp only [hsplit]
    rw [setBytes_fresh_padCrop]
  · rw [show decodeStorage data (.dAddress (List.replicate 20 0))
        = decodeStorageP rlpSplit data (.dAddress (List.replicate 20 0)) from rfl,
      decodeP_address_ne rlpSplit data _ hne]
    simp only [hsplit]
    rw [setBytes_fresh_padCrop]

theorem C10_fixed_pad_crop_witness :
    ([33, 1] : List Nat) ≠ [] ∧ rlpSplit [33, 1] = .ok (.byteK, [33], [1]) ∧
      decodeStorage [33, 1] (.dBytes32 (List.replicate 32 0))
          = .ok (.bytes32 (padCrop 32 [33])) ∧
      decodeStorage [33, 1] (.dAddress (List.replicate 20 0))
          = .ok (.address (padCrop 20 [33])) := by
  refine ⟨by decide, by decide, ?_⟩
  exact C10_fixed_pad_crop [33, 1] .byteK [33] [1] (by decide) (by decide)

/-- Destinations decoded through go-ethereum `rlp.DecodeBytes` (string,
unsigned integers, bool, big integer) as opposed to the `rlp.Split` +
`SetBytes` path of the fixed-width destinations. -/
def viaDecodeBytes : SDest → Bool
  | .dString => true
  | .dUint _ => true
  | .dBool => true
  | .dBigInt => true
  | _ => false

/-- A non-empty input that is not exactly one scalar envelope entry: the
parser errors on it, or it is a list entry, or bytes trail the first
entry. -/
def notSingleScalarB (data : List Nat) : Bool :=
  match rlpSplit data with
  | .error _ => true
  | .ok (k, _, rest) => k == RlpKind.listK || !rest.isEmpty

theorem decodeStringOne_cases (split : SplitFn) (data : List Nat) (k : RlpKind)
    (c rest : List Nat) (hsplit : split data = .ok (k, c, rest)) :
    (∃ e, decodeStringOne split data = .error e) ∨
    (∃ v, decodeStringOne split data = .ok (v, rest)) := by
  cases k with
  | byteK => exact Or.inr ⟨c, by simp [decodeStringOne, hsplit]⟩
  | stringK => exact Or.inr ⟨c, by simp [decodeStringOne, hsplit]⟩
  | listK => exact Or.inl ⟨"rlp: expected String or Byte", by simp [decodeStringOne, hsplit]⟩

theorem decodeUintOne_cases (split : SplitFn) (maxB : Nat) (data : List Nat) (k : RlpKind)
    (c rest : List Nat) (hsplit : split data = .ok (k, c, rest)) :
    (∃ e, decodeUintOne split maxB data = .error e) ∨
    (∃ n, decodeUintOne split maxB data = .ok (n, rest)) := by
  cases k with
  | listK => exact Or.inl ⟨"rlp: expected String or Byte", by simp [decodeUintOne, hsplit]⟩
  | byteK =>
    by_cases h0 : beVal c = 0
    · exact Or.inl ⟨"rlp: non-canonical integer format", by simp [decodeUintOne, hsplit, h0]⟩
    · exact Or.inr ⟨beVal c, by simp [decodeUintOne, hsplit, h0]⟩
  | stringK =>
    by_cases h1 : maxB < c.length
    · exact Or.inl ⟨"rlp: uint overflow", by simp [decodeUintOne, hsplit, h1]⟩
    · by_cases hz : c.head? = some 0
      · exact Or.inl ⟨"rlp: non-canonical integer format",
          by simp [decodeUintOne, hsplit, h1, hz]⟩
      · by_cases hlow : 0 < c.length ∧ beVal c < 128
        · exact Or.inl ⟨"rlp: non-canonical size information",
            by simp [decodeUintOne, hsplit, h1, hz, hlow]⟩
        · exact Or.inr ⟨beVal c, by simp [decodeUintOne, hsplit, h1, hz, hlow]⟩

theorem decodeBoolOne_cases (split : SplitFn) (data : List Nat) (k : RlpKind)
    (c rest : List Nat) (hsplit : split data = .ok (k, c, rest)) :
    (∃ e, decodeBoolOne split data = .error e) ∨
    (∃ b, decodeBoolOne split data = .ok (b, rest)) := by
  rcases decodeUintOne_cases split 1 data k c rest hsplit with ⟨e, he⟩ | ⟨n, hn⟩
  · exact Or.inl ⟨e, by simp [decodeBoolOne, he]⟩
  · match n, hn with
    | 0, hn => exact Or.inr ⟨false, by simp [decodeBoolOne, hn]⟩
    | 1, hn => exact Or.inr ⟨true, by simp [decodeBoolOne, hn]⟩
    | (m + 2), hn =>
      exact Or.inl ⟨"rlp: invalid boolean value: " ++ toString (m + 2),
        by simp [decodeBoolOne, hn]⟩

theorem decodeBigIntOne_cases (split : SplitFn) (data : List Nat) (k : RlpKind)
    (c rest : List Nat) (hsplit : split data = .ok (k, c, rest)) :
    (∃ e, decodeBigIntOne split data = .error e) ∨
    (∃ n, decodeBigIntOne split data = .ok (n, rest)) := by
  cases k with
  | listK => exact Or.inl ⟨"rlp: expected String or Byte", by simp [decodeBigIntOne, hsplit]⟩
  | byteK =>
    by_cases hz : c.head? = some 0
    · exact Or.inl ⟨"rlp: non-canonical integer format", by simp [decodeBigIntOne, hsplit, hz]⟩
    · exact Or.inr ⟨beVal c, by simp [decodeBigIntOne, hsplit, hz]⟩
  | stringK =>
    by_cases hz : c.head? = some 0
    · exact Or.inl ⟨"rlp: non-canonical integer format", by simp [decodeBigIntOne, hsplit, hz]⟩
    · exact Or.inr ⟨beVal c, by simp [decodeBigIntOne, hsplit, hz]⟩

/-- C5 counterexample: the input 0x01 0x01 is non-empty and is not exactly
one envelope entry (a valid one-byte entry is followed by a trailing
byte), yet decoding it into a 32-byte hash destination succeeds: the
fixed-width decode path calls `rlp.Split` and ignores trailing bytes. -/
theorem C5_trailing_accepted_counterexample :
    rlpSplit [1, 1] = .ok (.byteK, [1], [1]) ∧
      decodeStorage [1, 1] (.dBytes32 (List.replicate 32 0))
        = .ok (.bytes32 (List.replicate 31 0 ++ [1])) := by
  exact ⟨by decide, by decide⟩

/-- C5 (amended): for the destinations decoded through the general
envelope decoder — string, unsigned integers of every width, boolean and
big integer — every non-empty input that is not exactly one scalar
envelope entry (parse error, list entry where a scalar is expected, or
trailing bytes after a valid first entry) yields a decode error.  For the
32-byte hash and 20-byte address destinations this is false: only
malformed length prefixes are rejected, while trailing bytes and list
entries are accepted (see the counterexample and C10). -/
theorem C5_bad_envelope_errors (dst : SDest) (hd : viaDecodeBytes dst = true)
    (data : List Nat) (hne : data ≠ []) (hbad : notSingleScalarB data = true) :
    ∃ e, decodeStorage data dst = .error e := by
  cases dst with
  | dBytes32 prior => simp [viaDecodeBytes] at hd
  | dAddress prior => simp [viaDecodeBytes] at hd
  | dExt n => simp [viaDecodeBytes] at hd
  | dOther n => simp [viaDecodeBytes] at hd
  | dString =>
    rw [show decodeStorage data .dString = decodeStorageP rlpSplit data .dString from rfl,
      decodeP_str_ne rlpSplit data hne]
    cases hsplit : rlpSplit data with
    | error e => exact ⟨e, by simp [decodeStringOne, hsplit, decodeBytesWrap, Except.map]⟩
    | ok tpl =>
      obtain ⟨k, c, rest⟩ := tpl
      have hkr : k = RlpKind.listK ∨ rest ≠ [] := by
        unfold notSingleScalarB at hbad
        rw [hsplit] at hbad
        simpa using hbad
      rcases decodeStringOne_cases rlpSplit data k c rest hsplit with ⟨e, he⟩ | ⟨v, hv⟩
      · exact ⟨e, by simp [he, decodeBytesWrap, Except.map]⟩
      · have hrest : rest ≠ [] := by
          rcases hkr with hk | hr
          · subst hk
            exact absurd hv (by simp [decodeStringOne, hsplit])
          · exact hr
        exact ⟨"rlp: input contains more than one value",
          by simp [hv, decodeBytesWrap, List.isEmpty_eq_false.mpr hrest, Except.map]⟩
  | dUint w =>
    rw [show decodeStorage data (.dUint w) = decodeStorageP rlpSplit data (.dUint w) from rfl,
      decodeP_uint_ne rlpSplit data w hne]
    cases hsplit : rlpSplit data with
    | error e => exact ⟨e, by simp [decodeUintOne, hsplit, decodeBytesWrap, Except.map]⟩
    | ok tpl =>
      obtain ⟨k, c, rest⟩ := tpl
      have hkr : k = RlpKind.listK ∨ rest ≠ [] := by
        unfold notSingleScalarB at hbad
        rw [hsplit] at hbad
        simpa using hbad
      rcases decodeUintOne_cases rlpSplit w.byteSize data k c rest hsplit with ⟨e, he⟩ | ⟨n, hn⟩
      · exact ⟨e, by simp [he, decodeBytesWrap, Except.map]⟩
      · have hrest : rest ≠ [] := by
          rcases hkr with hk | hr
          · subst hk
            exact absurd hn (by simp [decodeUintOne, hsplit])
          · exact hr
        exact ⟨"rlp: input contains more than one value",
          by simp [hn, decodeBytesWrap, List.isEmpty_eq_false.mpr hrest, Except.map]⟩
  | dBool =>
    rw [show decodeStorage data .dBool = decodeStorageP rlpSplit data .dBool from rfl,
      decodeP_bool_ne rlpSplit data hne]
    cases hsplit : rlpSplit data with
    | error e =>
      exact ⟨e, by simp [decodeBoolOne, decodeUintOne, hsplit, decodeBytesWrap, Except.map]⟩
    | ok tpl =>
      obtain ⟨k, c, rest⟩ := tpl
      have hkr : k = RlpKind.listK ∨ rest ≠ [] := by
        unfold notSingleScalarB at hbad
        rw [hsplit] at hbad
        simpa using hbad
      rcases decodeBoolOne_cases rlpSplit data k c rest hsplit with ⟨e, he⟩ | ⟨b, hb⟩
      · exact ⟨e, by simp [he, decodeBytesWrap, Except.map]⟩
      · have hrest : rest ≠ [] := by
          rcases hkr with hk | hr
          · subst hk
            rcases decodeUintOne_cases rlpSplit 1 data .listK c rest hsplit with ⟨e, he⟩ | ⟨n, hn⟩
            · exact absurd hb (by simp [decodeBoolOne, he])
            · exact absurd hn (by simp [decodeUintOne, hsplit])
          · exact hr
        exact ⟨"rlp: input contains more than one value",
          by simp [hb, decodeBytesWrap, List.isEmpty_eq_false.mpr hrest, Except.map]⟩
  | dBigInt =>
    rw [show decodeStorage data .dBigInt = decodeStorageP rlpSplit data .dBigInt from rfl,
      decodeP_bigint_ne rlpSplit data hne]
    cases hsplit : rlpSplit data with
    | error e => exact ⟨e, by simp [decodeBigIntOne, hsplit, decodeBytesWrap, Except.map]⟩
    | ok tpl =>
      obtain ⟨k, c, rest⟩ := tpl
      have hkr : k = RlpKind.listK ∨ rest ≠ [] := by
        unfold notSingleScalarB at hbad
        rw [hsplit] at hbad
        simpa using hbad
      rcases decodeBigIntOne_cases rlpSplit data k c rest hsplit with ⟨e, he⟩ | ⟨n, hn⟩
      · exact ⟨e, by simp [he, decodeBytesWrap, Except.map]⟩
      · have hrest : rest ≠ [] := by
          rcases hkr with hk | hr
          · subst hk
            exact absurd hn (by simp [decodeBigIntOne, hsplit])
          · exact hr
        exact ⟨"rlp: input contains more than one value",
          by simp [hn, decodeBytesWrap, List.isEmpty_eq_false.mpr hrest, Except.map]⟩

theorem C5_bad_envelope_errors_witness :
    viaDecodeBytes .dString = true ∧ ([192] : List Nat) ≠ [] ∧
      notSingleScalarB [192] = true ∧
      ∃ e, decodeStorage [192] .dString = .error e :=
  ⟨rfl, by decide, by decide,
    C5_bad_envelope_errors .dString rfl [192] (by decide) (by decide)⟩

/-- C6: for every non-zero unsigned integer of any supported width and
every positive big integer, the payload inside the produced envelope is
the minimal big-endian representation of the value: splitting the
encoding recovers exactly `beBytes` of the value, which is non-empty and
has a non-zero first byte. -/
theorem C6_minimal_payload (p : Bool) (w : UIntW) (n : Nat) (i : Int)
    (hn : n ≠ 0) (hw : wf (.uintV w n) = true)
    (hi : 0 < i) (hwi : wf (.bigInt i) = true) :
    ∃ kU kI hU tU hI tI,
      encodeStorage p (.uintV w n) = .ok (rlpEncodeBytes (beBytes n)) ∧
      rlpSplit (rlpEncodeBytes (beBytes n)) = .ok (kU, beBytes n, []) ∧
      beBytes n = hU :: tU ∧ hU ≠ 0 ∧
      encodeStorage true (.bigInt i) = .ok (rlpEncodeBytes (beBytes i.toNat)) ∧
      rlpSplit (rlpEncodeBytes (beBytes i.toNat)) = .ok (kI, beBytes i.toNat, []) ∧
      beBytes i.toNat = hI :: tI ∧ hI ≠ 0 := by
  simp only [wf, decide_eq_true_eq] at hw hwi
  have hneU : beBytes n ≠ [] := fun hc => hn ((beBytes_eq_nil_iff _).mp hc)
  have hlenU : (beBytes n).length < 2 ^ 64 := by
    have hB : w.byteSize ≤ 8 := by cases w <;> simp [UIntW.byteSize]
    have hm : n < 256 ^ w.byteSize := by
      rw [show (256 : Nat) = 2 ^ 8 from by norm_num, ← pow_mul]
      exact hw
    have := (beBytes_len_le_iff n w.byteSize).mpr hm
    omega
  obtain ⟨kU, hsplitU, -, -⟩ := rlpSplit_encode (beBytes n) hneU (beBytes_all_lt n) hlenU
  obtain ⟨hU, tU, hcU⟩ : ∃ h t, beBytes n = h :: t := by
    cases hbb : beBytes n with
    | nil => exact absurd hbb hneU
    | cons a l => exact ⟨a, l, rfl⟩
  have hU0 : hU ≠ 0 := by
    intro hc
    apply beBytes_head?_ne_some_zero n
    rw [hcU, hc]
    rfl
  have hin : i.toNat ≠ 0 := by omega
  have hneI : beBytes i.toNat ≠ [] := fun hc => hin ((beBytes_eq_nil_iff _).mp hc)
  obtain ⟨kI, hsplitI, -, -⟩ := rlpSplit_encode (beBytes i.toNat) hneI (beBytes_all_lt _) hwi
  obtain ⟨hI, tI, hcI⟩ : ∃ h t, beBytes i.toNat = h :: t := by
    cases hbb : beBytes i.toNat with
    | nil => exact absurd hbb hneI
    | cons a l => exact ⟨a, l, rfl⟩
  have hI0 : hI ≠ 0 := by
    intro hc
    apply beBytes_head?_ne_some_zero i.toNat
    rw [hcI, hc]
    rfl
  refine ⟨kU, kI, hU, tU, hI, tI, ?_, hsplitU, hcU, hU0, ?_, hsplitI, hcI, hI0⟩
  · have hform : encodeStorage p (.uintV w n) = encodeUint n := by cases p <;> rfl
    rw [hform, encodeUint, if_neg hn]
  · rw [show encodeStorage true (.bigInt i)
        = (if i = 0 then Except.ok [] else if i < 0 then
            Except.error "rlp: cannot encode negative *big.Int"
          else Except.ok (rlpEncodeBytes (beBytes i.toNat))) from rfl,
      if_neg (by omega : ¬ i = 0), if_neg (by omega : ¬ i < 0)]

theorem C6_minimal_payload_witness :
    (300 : Nat) ≠ 0 ∧ wf (.uintV .u64 300) = true ∧ (0 : Int) < 5 ∧
      wf (.bigInt 5) = true ∧
      ∃ kU kI hU tU hI tI,
        encodeStorage false (.uintV .u64 300) = .ok (rlpEncodeBytes (beBytes 300)) ∧
        rlpSplit (rlpEncodeBytes (beBytes 300)) = .ok (kU, beBytes 300, []) ∧
        beBytes 300 = hU :: tU ∧ hU ≠ 0 ∧
        encodeStorage true (.bigInt 5) = .ok (rlpEncodeBytes (beBytes (5 : Int).toNat)) ∧
        rlpSplit (rlpEncodeBytes (beBytes (5 : Int).toNat))
          = .ok (kI, beBytes (5 : Int).toNat, []) ∧
        beBytes (5 : Int).toNat = hI :: tI ∧ hI ≠ 0 :=
  ⟨by decide, by decide, by decide, by decide,
    C6_minimal_payload false .u64 300 5 (by decide) (by decide) (by decide) (by decide)⟩

/-- C8: for every built-in destination type, decoding a 1-byte input whose
single byte is an incomplete envelope length prefix (every byte value
other than 0x00..0x80 and 0xC0, which form complete one-byte entries)
returns an error through the decoder's error result — no input of this
shape is silently truncated or accepted. -/
theorem C8_incomplete_header_errors (dst : SDest) (hdst : isBuiltinDest dst = true)
    (b : Nat) (h1 : 128 < b) (h2 : b < 256) (h3 : b ≠ 192) :
    ∃ e, decodeStorage [b] dst = .error e := by
  have hsp : ∀ bb, bb < 256 → 128 < bb → bb ≠ 192 → isError (rlpSplit [bb]) = true := by
    decide
  obtain ⟨e, he⟩ := (isError_iff _).mp (hsp b h2 h1 h3)
  have hne : ([b] : List Nat) ≠ [] := by simp
  cases dst with
  | dExt n => simp [isBuiltinDest] at hdst
  | dOther n => simp [isBuiltinDest] at hdst
  | dBytes32 prior =>
    refine ⟨e, ?_⟩
    rw [show decodeStorage [b] (.dBytes32 prior)
        = decodeStorageP rlpSplit [b] (.dBytes32 prior) from rfl,
      decodeP_bytes32_ne rlpSplit [b] prior hne]
    simp [he]
  | dAddress prior =>
    refine ⟨e, ?_⟩
    rw [show decodeStorage [b] (.dAddress prior)
        = decodeStorageP rlpSplit [b] (.dAddress prior) from rfl,
      decodeP_address_ne rlpSplit [b] prior hne]
    simp [he]
  | dString =>
    refine ⟨e, ?_⟩
    rw [show decodeStorage [b] .dString = decodeStorageP rlpSplit [b] .dString from rfl,
      decodeP_str_ne rlpSplit [b] hne]
    simp [decodeStringOne, he, decodeBytesWrap, Except.map]
  | dUint w =>
    refine ⟨e, ?_⟩
    rw [show decodeStorage [b] (.dUint w) = decodeStorageP rlpSplit [b] (.dUint w) from rfl,
      decodeP_uint_ne rlpSplit [b] w hne]
    simp [decodeUintOne, he, decodeBytesWrap, Except.map]
  | dBool =>
    refine ⟨e, ?_⟩
    rw [show decodeStorage [b] .dBool = decodeStorageP rlpSplit [b] .dBool from rfl,
      decodeP_bool_ne rlpSplit [b] hne]
    simp [decodeBoolOne, decodeUintOne, he, decodeBytesWrap, Except.map]
  | dBigInt =>
    refine ⟨e, ?_⟩
    rw [show decodeStorage [b] .dBigInt = decodeStorageP rlpSplit [b] .dBigInt from rfl,
      decodeP_bigint_ne rlpSplit [b] hne]
    simp [decodeBigIntOne, he, decodeBytesWrap, Except.map]

theorem C8_incomplete_header_errors_witness :
    isBuiltinDest (.dUint .u64) = true ∧ 128 < 129 ∧ 129 < 256 ∧ (129 : Nat) ≠ 192 ∧
      ∃ e, decodeStorage [129] (.dUint .u64) = .error e :=
  ⟨rfl, by decide, by decide, by decide,
    C8_incomplete_header_errors (.dUint .u64) rfl 129 (by decide) (by decide) (by decide)⟩
